import Mathlib

/-!
Verification of the AgentSpec Python SDK streaming core
(`sdk/python/agentspec/streaming.py`), shallowly embedded in Lean.

Conventions of the embedding:
  * Python strings are Lean `String`; per-character operations work on `String.data`.
  * Byte buffers are `List Nat` (one `Nat` per byte).
  * The standard-library collaborators `json.loads` and `bytes.decode` are
    parameters (`jdec : String → Option Json`, `udec : List Nat → Option String`);
    `none` models the library raising its decode error.  Concrete executable
    models (`jsonParse`, `asciiDecode`) are provided for witnesses and agree
    with the library on those inputs.
  * Exceptions escaping the streaming call are the `PyErr` values; fallible
    code returns `Except`.
  * Dynamically-typed reads that the Python code stores into typed result
    fields are modelled as requiring the expected type (`asInt`, `asStr`);
    theorems about `stream_text` therefore quantify over runs on which the
    fold succeeds, which is exactly the well-typed event sequences.
-/

namespace AgentSpec

/-- JSON values, the model of what `json.loads` produces.  Objects are
association lists looked up by key. -/
inductive Json where
  | null
  | bool (b : Bool)
  | num (n : Int)
  | str (s : String)
  | arr (xs : List Json)
  | obj (kvs : List (String × Json))

/-- A single SSE event, mirroring the dataclass `StreamEvent` of
`client.py` (an event name and a decoded `data` payload). -/
structure StreamEvent where
  event : String
  data : Json

/-- Token usage statistics, mirroring the dataclass `TokenUsage` of
`client.py`, all fields defaulting to 0. -/
structure TokenUsage where
  input : Int := 0
  output : Int := 0
  cache_read : Int := 0
  total : Int := 0

/-- Accumulated result of a completed stream, mirroring the dataclass
`StreamResult` of `streaming.py`. -/
structure StreamResult where
  text : String := ""
  tokens : TokenUsage := {}
  turns : Int := 0
  duration_ms : Int := 0

/-- The exceptions that can escape the non-200 branch of
`AsyncStreamingClient.stream`: `APIError(status, error_code, message)` and a
propagated `json.JSONDecodeError`.  The error code and message are `Json`
because Python would store whatever value the error body held there. -/
inductive PyErr where
  | apiError (status : Int) (errorCode : Json) (message : Json)
  | jsonDecodeError

/-- Discriminates the `apiError` constructor of `PyErr`. -/
def PyErr.isApi : PyErr → Bool
  | .apiError _ _ _ => true
  | .jsonDecodeError => false

/-! ## Small string helpers (models of the Python string methods used) -/

/-- Bool test that the first list is an initial segment of the second. -/
def startsWithL : List Char → List Char → Bool
  | [], _ => true
  | _ :: _, [] => false
  | p :: ps, c :: cs => p == c && startsWithL ps cs

/-- Model of Python `line.startswith(pat)`. -/
def pyStartsWith (s pat : String) : Bool := startsWithL pat.data s.data

/-- Model of Python slicing `s[n:]` (drop the first `n` characters). -/
def pyDrop (s : String) (n : Nat) : String := String.mk (s.data.drop n)

/-- Model of Python `line.rstrip("\n\r")`: remove every trailing newline or
carriage-return character. -/
def rstripNL (s : String) : String :=
  String.mk ((s.data.reverse.dropWhile (fun c => c == '\n' || c == '\r')).reverse)

/-- Lookup in a JSON object association list with a default, the model of
Python `dict.get(key, default)` on a known mapping. -/
def jlookupD (kvs : List (String × Json)) (k : String) (d : Json) : Json :=
  (kvs.lookup k).getD d

/-- Total best-effort field read: `dict.get(key, default)` when the value is
known to be a mapping; non-mappings yield the default.  Used only on the
specification side of theorems. -/
def jfieldD (j : Json) (k : String) (d : Json) : Json :=
  match j with
  | Json.obj kvs => jlookupD kvs k d
  | _ => d

/-- The `text` field of a payload as a string (empty when absent or not a
string).  Specification-side helper. -/
def textField (d : Json) : String :=
  match jfieldD d "text" (Json.str "") with
  | Json.str s => s
  | _ => ""

/-- An integer field of a payload (0 when absent or not a number).
Specification-side helper. -/
def intField (d : Json) (k : String) : Int :=
  match jfieldD d k (Json.num 0) with
  | Json.num n => n
  | _ => 0

/-! ## SSE decoder (`AsyncStreamingClient.stream`, lines 125-139)

The decoder consumes the raw lines of the response body.  `jdec` is the
`json.loads` collaborator; the pending event name starts empty. -/

/-- Payload of a `data:` line: the JSON decoding of the text after the
marker, or `{"raw": <text>}` when decoding fails (lines 132-135). -/
def decodeOrRaw (jdec : String → Option Json) (s : String) : Json :=
  match jdec s with
  | some j => j
  | none => Json.obj [("raw", Json.str s)]

/-- The SSE decoding loop of `stream` (lines 125-139): strip the line
terminator, update the pending event name on `event: ` lines, emit one event
per `data: ` line, stop right after emitting an event named `"done"`, and
ignore every other line. -/
def decodeSSE (jdec : String → Option Json) : List String → String → List StreamEvent
  | [], _ => []
  | raw :: rest, event_type =>
    let line := rstripNL raw
    if pyStartsWith line "event: " then
      decodeSSE jdec rest (pyDrop line 7)
    else if pyStartsWith line "data: " then
      let ev : StreamEvent := { event := event_type, data := decodeOrRaw jdec (pyDrop line 6) }
      if event_type == "done" then [ev] else ev :: decodeSSE jdec rest ""
    else
      decodeSSE jdec rest event_type

/-! Specification-side rendering of claim C1, kept structurally independent of
`decodeSSE`: first assign to each `data:` line the most recently seen
`event:` name since the last emission, then decode payloads, then truncate at
the first event named `"done"`. -/

/-- For each `data:` line, in order, the pair (pending event name, text after
the marker), following the wording of the specification. -/
def specDataPairs : List String → String → List (String × String)
  | [], _ => []
  | raw :: rest, pending =>
    let line := rstripNL raw
    if pyStartsWith line "event: " then
      specDataPairs rest (pyDrop line 7)
    else if pyStartsWith line "data: " then
      (pending, pyDrop line 6) :: specDataPairs rest ""
    else
      specDataPairs rest pending

/-- Truncate an event list at (and including) the first event named
`"done"`. -/
def upToDone : List StreamEvent → List StreamEvent
  | [] => []
  | e :: es => if e.event == "done" then [e] else e :: upToDone es

/-- Specification-side event sequence for an input line list. -/
def specSSE (jdec : String → Option Json) (lines : List String) : List StreamEvent :=
  upToDone ((specDataPairs lines "").map
    (fun p => { event := p.1, data := decodeOrRaw jdec p.2 }))

/-- True when no event other than the final one is named `"done"`. -/
def doneOnlyLast : List StreamEvent → Bool
  | [] => true
  | e :: rest =>
    match rest with
    | [] => true
    | _ :: _ => (e.event != "done") && doneOnlyLast rest

/-- The name of the last event of a list, if any. -/
def lastName : List StreamEvent → Option String
  | [] => none
  | e :: rest =>
    match rest with
    | [] => some e.event
    | _ :: _ => lastName rest

/-! ## Non-200 branch (`AsyncStreamingClient.stream`, lines 110-122) -/

/-- The error raised after the buffered error body has been read, as a
function of the result of `body_data.decode()` (`none` models
`UnicodeDecodeError`).  Mirrors the `try/except` of lines 112-122:
a mapping body raises `APIError(status, err.get("error","unknown"),
err.get("message","request failed"))`; a JSON decode failure re-raises the
`json.JSONDecodeError` (line 119-120); every other failure (unicode decode
error, non-mapping JSON) falls back to
`APIError(status, "unknown", "request failed")`. -/
def handleNon200Body (jdec : String → Option Json) (status : Int)
    (decoded : Option String) : PyErr :=
  match decoded with
  | none => PyErr.apiError status (Json.str "unknown") (Json.str "request failed")
  | some s =>
    match jdec s with
    | none => PyErr.jsonDecodeError
    | some (Json.obj kvs) =>
        PyErr.apiError status (jlookupD kvs "error" (Json.str "unknown"))
          (jlookupD kvs "message" (Json.str "request failed"))
    | some _ => PyErr.apiError status (Json.str "unknown") (Json.str "request failed")

/-- The whole non-200 branch: `body_data = await reader.read(4096)` reads at
most 4096 buffered bytes (line 111), which are then decoded and turned into
the raised error. -/
def handleNon200 (udec : List Nat → Option String) (jdec : String → Option Json)
    (status : Int) (buf : List Nat) : PyErr :=
  handleNon200Body jdec status (udec (buf.take 4096))

/-- The status dispatch of `stream` after the response headers were parsed
(lines 110-139): a non-200 status raises the error built from the buffered
bytes and no event is ever produced; a 200 status enters the SSE decoding
loop over the body lines. -/
def streamDispatch (udec : List Nat → Option String) (jdec : String → Option Json)
    (status : Int) (buf : List Nat) (lines : List String) :
    Except PyErr (List StreamEvent) :=
  if status ≠ 200 then Except.error (handleNon200 udec jdec status buf)
  else Except.ok (decodeSSE jdec lines "")

/-! ## Header-reading loop (`AsyncStreamingClient.stream`, lines 104-108)

The reader is modelled as the list of its remaining lines;
`asyncio.StreamReader.readline` at end-of-stream returns the empty line and
leaves the reader unchanged. -/

/-- One `readline()` call: the next line, or the empty end-of-stream
sentinel. -/
def readlineSim : List String → String × List String
  | [] => ("", [])
  | l :: rest => (l, rest)

/-- One iteration of the header loop `while True: header_line = await
reader.readline(); if header_line == b"\r\n" or header_line == b"\n": break`.
`Sum.inr` is the broken-out state, `Sum.inl` keeps looping. -/
def headerStep (s : List String) : List String ⊕ List String :=
  let p := readlineSim s
  if p.1 == "\r\n" || p.1 == "\n" then Sum.inr p.2 else Sum.inl p.2

/-- `n` iterations of the header loop. -/
def headerIter : Nat → List String → List String ⊕ List String
  | 0, s => Sum.inl s
  | n + 1, s =>
    match headerStep s with
    | Sum.inl s2 => headerIter n s2
    | Sum.inr s2 => Sum.inr s2

/-! ## Accumulator (`AsyncStreamingClient.stream_text`, lines 156-171) -/

/-- `dict.get(key, default)` on an event payload; a non-mapping payload is a
Python `AttributeError`, modelled as `Except.error`. -/
def jgetE (j : Json) (k : String) (d : Json) : Except Unit Json :=
  match j with
  | Json.obj kvs => Except.ok (jlookupD kvs k d)
  | _ => Except.error ()

/-- Coerce a JSON value to a string; anything else is a type error. -/
def asStr : Json → Except Unit String
  | Json.str s => Except.ok s
  | _ => Except.error ()

/-- Coerce a JSON value to an integer; anything else is a type error. -/
def asInt : Json → Except Unit Int
  | Json.num n => Except.ok n
  | _ => Except.error ()

/-- One step of the `stream_text` fold (lines 160-170): `"text"` events
append `event.data.get("text", "")` to the text; `"done"` events overwrite
`tokens` (from the `tokens` sub-mapping: `input`, `output`, `total`; never
`cache_read`), `turns` and `duration_ms`; other events change nothing. -/
def streamTextStep (r : StreamResult) (e : StreamEvent) : Except Unit StreamResult :=
  if e.event == "text" then do
    let t ← asStr (← jgetE e.data "text" (Json.str ""))
    Except.ok { r with text := r.text ++ t }
  else if e.event == "done" then do
    let td ← jgetE e.data "tokens" (Json.obj [])
    let inputV ← asInt (← jgetE td "input" (Json.num 0))
    let outputV ← asInt (← jgetE td "output" (Json.num 0))
    let totalV ← asInt (← jgetE td "total" (Json.num 0))
    let turnsV ← asInt (← jgetE e.data "turns" (Json.num 0))
    let durationV ← asInt (← jgetE e.data "duration_ms" (Json.num 0))
    Except.ok { r with
      tokens := { input := inputV, output := outputV, cache_read := 0, total := totalV },
      turns := turnsV, duration_ms := durationV }
  else
    Except.ok r

/-- The fold of `stream_text` over an event sequence, starting from the
default `StreamResult()`. -/
def streamTextFold (evs : List StreamEvent) : Except Unit StreamResult :=
  List.foldlM streamTextStep {} evs

/-! Specification-side fold results for claims C6 and C7. -/

/-- Ordered concatenation of the `text` payload field of every event named
`"text"` (missing field contributes nothing). -/
def specText : List StreamEvent → String
  | [] => ""
  | e :: rest => (if e.event == "text" then textField e.data else "") ++ specText rest

/-- The last event named `"done"` of a sequence, if any. -/
def lastDone : List StreamEvent → Option StreamEvent
  | [] => none
  | e :: rest =>
    match lastDone rest with
    | some d => some d
    | none => if e.event == "done" then some e else none

/-- The token usage a `"done"` payload produces: `input`, `output` and
`total` from its `tokens` sub-mapping, `cache_read` never populated. -/
def tokensField (d : Json) : TokenUsage :=
  let td := jfieldD d "tokens" (Json.obj [])
  { input := intField td "input", output := intField td "output",
    cache_read := 0, total := intField td "total" }

/-- Final `turns` value: that of the last `"done"` event (0 when none). -/
def specTurns (evs : List StreamEvent) : Int :=
  match lastDone evs with
  | some e => intField e.data "turns"
  | none => 0

/-- Final `duration_ms` value: that of the last `"done"` event (0 when
none). -/
def specDuration (evs : List StreamEvent) : Int :=
  match lastDone evs with
  | some e => intField e.data "duration_ms"
  | none => 0

/-- Final token usage: that of the last `"done"` event (defaults when
none). -/
def specTokens (evs : List StreamEvent) : TokenUsage :=
  match lastDone evs with
  | some e => tokensField e.data
  | none => {}

/-! ## Request encoder (`AsyncStreamingClient.stream`, lines 84-95)

The serialized JSON body is taken as a string parameter (`json.dumps` is a
collaborator); `Content-Length` is its UTF-8 byte length, rendered in
decimal by `natDigits` (the model of Python `str(int)`). -/

/-- Decimal digit characters of a natural number, fuelled (the fuel
`n + 1` always suffices). -/
def natDigitsAux : Nat → Nat → List Char
  | 0, _ => []
  | fuel + 1, n =>
    if n < 10 then [Char.ofNat (48 + n)]
    else natDigitsAux fuel (n / 10) ++ [Char.ofNat (48 + n % 10)]

/-- Decimal rendering of a natural number as characters. -/
def natDigits (n : Nat) : List Char := natDigitsAux (n + 1) n

/-- Decimal rendering of a natural number as a string. -/
def natStr (n : Nat) : String := String.mk (natDigits n)

/-- The exact byte (character) sequence the encoder writes (lines 86-95):
request line, `Host`, `Content-Type`, `Content-Length`, `Authorization`
when an API key is set, `Accept`, blank line, body. -/
def encodeRequest (path host apiKey bodyStr : String) : List Char :=
  "POST ".data ++ path.data ++ " HTTP/1.1\r\n".data ++
  ("Host: ".data ++ host.data ++ "\r\n".data) ++
  "Content-Type: application/json\r\n".data ++
  ("Content-Length: ".data ++ natDigits bodyStr.utf8ByteSize ++ "\r\n".data) ++
  (if apiKey = "" then [] else "Authorization: Bearer ".data ++ apiKey.data ++ "\r\n".data) ++
  "Accept: text/event-stream\r\n".data ++
  "\r\n".data ++ bodyStr.data

/-- The same bytes grouped into header lines, used to reason about the
parser: each line of `headerLines`, separated by CRLF, then the blank-line
terminator, then the body. -/
def sepCRLF : List (List Char) → List Char
  | [] => []
  | l :: ls =>
    match ls with
    | [] => l
    | _ :: _ => l ++ '\r' :: '\n' :: sepCRLF ls

/-- The request line of the encoder output. -/
def requestLine (path : String) : List Char :=
  "POST ".data ++ path.data ++ " HTTP/1.1".data

/-- The `Host` header line of the encoder output. -/
def hostLine (host : String) : List Char := "Host: ".data ++ host.data

/-- The `Content-Type` header line of the encoder output. -/
def ctLine : List Char := "Content-Type: application/json".data

/-- The `Content-Length` header line of the encoder output. -/
def clLine (bodyStr : String) : List Char :=
  "Content-Length: ".data ++ natDigits bodyStr.utf8ByteSize

/-- The `Authorization` header line of the encoder output. -/
def authLine (apiKey : String) : List Char :=
  "Authorization: Bearer ".data ++ apiKey.data

/-- The `Accept` header line of the encoder output. -/
def acceptLine : List Char := "Accept: text/event-stream".data

/-- The lines (request line first) of the encoder output. -/
def headerLines (path host apiKey bodyStr : String) : List (List Char) :=
  requestLine path :: hostLine host :: ctLine :: clLine bodyStr ::
    ((if apiKey = "" then [] else [authLine apiKey]) ++ [acceptLine])

/-! ## A standard HTTP/1.1 request parser (model), for the round-trip claim -/

/-- Split at the first occurrence of a character: the part before it and the
part after it, or `none` when absent. -/
def takeUntilChar (t : Char) : List Char → Option (List Char × List Char)
  | [] => none
  | c :: cs =>
    if c = t then some ([], cs)
    else (takeUntilChar t cs).map (fun p => (c :: p.1, p.2))

/-- Split a byte sequence at the first blank line (`CRLF CRLF`): the header
block and the remaining body. -/
def breakAtCRLFCRLF : List Char → Option (List Char × List Char)
  | [] => none
  | c :: rest =>
    if c = '\r' ∧ rest.take 3 = ['\n', '\r', '\n'] then some ([], rest.drop 3)
    else (breakAtCRLFCRLF rest).map (fun p => (c :: p.1, p.2))

/-- Split a character list into its CRLF-separated lines. -/
def splitCRLF : List Char → List (List Char)
  | [] => [[]]
  | [c] => [[c]]
  | c :: d :: rest =>
    if c = '\r' ∧ d = '\n' then [] :: splitCRLF rest
    else
      match splitCRLF (d :: rest) with
      | [] => [[c]]
      | l :: ls => (c :: l) :: ls

/-- Split a character list on every occurrence of a character. -/
def splitChar (t : Char) : List Char → List (List Char)
  | [] => [[]]
  | c :: rest =>
    if c = t then [] :: splitChar t rest
    else
      match splitChar t rest with
      | [] => [[c]]
      | l :: ls => (c :: l) :: ls

/-- Remove one leading space of a header value, as an HTTP parser does after
the colon. -/
def dropOneSpace : List Char → List Char
  | ' ' :: t => t
  | t => t

/-- Parse header lines `Key: Value` at the first colon. -/
def parseHeaderLines : List (List Char) → Option (List (String × String))
  | [] => some []
  | l :: ls => do
    let (k, vr) ← takeUntilChar ':' l
    let hs ← parseHeaderLines ls
    pure ((String.mk k, String.mk (dropOneSpace vr)) :: hs)

/-- A parsed HTTP/1.1 request. -/
structure ParsedRequest where
  method : String
  path : String
  version : String
  headers : List (String × String)
  body : String

/-- A standard HTTP/1.1 request parser (model): split head from body at the
blank line, split the head into lines, read `method path version` from the
request line, parse the remaining lines as headers, keep the body bytes. -/
def parseRequest (cs : List Char) : Option ParsedRequest := do
  let (head, body) ← breakAtCRLFCRLF cs
  match splitCRLF head with
  | [] => none
  | rl :: hls =>
    match splitChar ' ' rl with
    | [m, p, v] => do
      let hs ← parseHeaderLines hls
      pure { method := String.mk m, path := String.mk p, version := String.mk v,
             headers := hs, body := String.mk body }
    | _ => none

/-- The headers the round-trip claim expects the parser to reproduce. -/
def expectedHeaders (host apiKey bodyStr : String) : List (String × String) :=
  ("Host", host) ::
  ("Content-Type", "application/json") ::
  ("Content-Length", natStr bodyStr.utf8ByteSize) ::
  ((if apiKey = "" then [] else [("Authorization", "Bearer " ++ apiKey)]) ++
    [("Accept", "text/event-stream")])

/-! ## URL helpers (`_parse_host_port`, lines 174-181) -/

/-- Replace every occurrence of a pattern, left to right, the model of
Python `str.replace` (fuelled by the input length, which always
suffices for a nonempty pattern). -/
def replaceAux : Nat → List Char → List Char → List Char → List Char
  | 0, _, _, s => s
  | fuel + 1, pat, rep, s =>
    match s with
    | [] => []
    | c :: rest =>
      if startsWithL pat s then rep ++ replaceAux fuel pat rep (s.drop pat.length)
      else c :: replaceAux fuel pat rep rest

/-- Model of Python `s.replace(pat, rep)`. -/
def pyReplace (s pat rep : String) : String :=
  String.mk (replaceAux s.data.length pat.data rep.data s.data)

/-- Lines 176: strip the `http://` and `https://` scheme markers. -/
def stripSchemes (url : String) : String :=
  pyReplace (pyReplace url "http://" "") "https://" ""

/-- Line 177: `url.split("/")[0]` after scheme stripping. -/
def hostPortOf (url : String) : String :=
  String.mk ((stripSchemes url).data.takeWhile (fun c => c != '/'))

/-- Model of Python `int(s)` on plain decimal numerals. -/
def pyInt (s : String) : Option Int := s.toInt?

/-- `_parse_host_port` (lines 174-181): strip schemes, keep the text before
the first slash; when it contains a colon, split at the last colon and parse
the port (`none` models the `ValueError` of `int`); otherwise port 80. -/
def parse_host_port (url : String) : Option (String × Int) :=
  let hp := hostPortOf url
  if hp.data.contains ':' then
    let afterRev := hp.data.reverse.takeWhile (fun c => c != ':')
    let host := String.mk ((hp.data.reverse.drop (afterRev.length + 1)).reverse)
    (pyInt (String.mk afterRev.reverse)).map (fun p => (host, p))
  else some (hp, 80)

/-! ## Concrete collaborator models for witnesses

`jsonParse` is an executable model of `json.loads` on a JSON subset (no
escape sequences, integer numbers); it agrees with `json.loads` on every
input used in a witness or counterexample below.  `asciiDecode` models
`bytes.decode()` on the ASCII subset of UTF-8. -/

/-- Skip JSON whitespace. -/
def jskipWs (cs : List Char) : List Char :=
  cs.dropWhile (fun c => c == ' ' || c == '\t' || c == '\n' || c == '\r')

/-- The left brace character. -/
def lbrace : Char := Char.ofNat 123

/-- The right brace character. -/
def rbrace : Char := Char.ofNat 125

/-- Parse the rest of a JSON string after the opening quote (no escape
sequences supported; a backslash fails the parse). -/
def parseJStrBody (cs : List Char) : Option (String × List Char) :=
  let content := cs.takeWhile (fun c => c != '"' && c != '\\')
  match cs.dropWhile (fun c => c != '"' && c != '\\') with
  | '"' :: r => some (String.mk content, r)
  | _ => none

/-- Digits to a natural number. -/
def digitsToNat (ds : List Char) : Nat :=
  ds.foldl (fun a c => 10 * a + (c.toNat - 48)) 0

/-- Parse an optionally signed integer numeral. -/
def parseJNum (cs : List Char) : Option (Int × List Char) :=
  match cs with
  | '-' :: rest =>
    let ds := rest.takeWhile Char.isDigit
    if ds = [] then none
    else some (-(digitsToNat ds : Int), rest.dropWhile Char.isDigit)
  | _ =>
    let ds := cs.takeWhile Char.isDigit
    if ds = [] then none
    else some ((digitsToNat ds : Int), cs.dropWhile Char.isDigit)

mutual

/-- Parse one JSON value (fuelled). -/
def parseJVal : Nat → List Char → Option (Json × List Char)
  | 0, _ => none
  | fuel + 1, cs =>
    match jskipWs cs with
    | 'n' :: 'u' :: 'l' :: 'l' :: r => some (Json.null, r)
    | 't' :: 'r' :: 'u' :: 'e' :: r => some (Json.bool true, r)
    | 'f' :: 'a' :: 'l' :: 's' :: 'e' :: r => some (Json.bool false, r)
    | '"' :: r => (parseJStrBody r).map (fun p => (Json.str p.1, p.2))
    | '[' :: r =>
      (match jskipWs r with
       | ']' :: r2 => some (Json.arr [], r2)
       | _ => (parseJElems fuel r).map (fun p => (Json.arr p.1, p.2)))
    | c :: r =>
      if c = lbrace then
        match jskipWs r with
        | [] => none
        | c2 :: r2 =>
          if c2 = rbrace then some (Json.obj [], r2)
          else (parseJMembers fuel (c2 :: r2)).map (fun p => (Json.obj p.1, p.2))
      else (parseJNum (c :: r)).map (fun p => (Json.num p.1, p.2))
    | [] => none

/-- Parse the comma-separated elements of a JSON array, up to the closing
bracket (fuelled). -/
def parseJElems : Nat → List Char → Option (List Json × List Char)
  | 0, _ => none
  | fuel + 1, cs => do
    let (v, r) ← parseJVal fuel cs
    match jskipWs r with
    | ',' :: r2 => (parseJElems fuel r2).map (fun p => (v :: p.1, p.2))
    | ']' :: r2 => some ([v], r2)
    | _ => none

/-- Parse the comma-separated members of a JSON object, up to the closing
brace (fuelled). -/
def parseJMembers : Nat → List Char → Option (List (String × Json) × List Char)
  | 0, _ => none
  | fuel + 1, cs =>
    match jskipWs cs with
    | '"' :: r => do
      let (k, r2) ← parseJStrBody r
      match jskipWs r2 with
      | ':' :: r3 => do
        let (v, r4) ← parseJVal fuel r3
        match jskipWs r4 with
        | ',' :: r5 => (parseJMembers fuel r5).map (fun p => ((k, v) :: p.1, p.2))
        | c :: r5 => if c = rbrace then some ([(k, v)], r5) else none
        | [] => none
      | _ => none
    | _ => none

end

/-- Executable model of `json.loads` (on the subset described above): parse
one value, require only whitespace afterwards. -/
def jsonParse (s : String) : Option Json :=
  match parseJVal (2 * s.data.length + 2) s.data with
  | some (j, r) => if jskipWs r = [] then some j else none
  | none => none

/-- Executable model of `bytes.decode()` on ASCII bytes. -/
def asciiDecode (bs : List Nat) : Option String :=
  if bs.all (fun b => b < 128) then some (String.mk (bs.map Char.ofNat)) else none

/-! ## Concrete fixtures used by witnesses and counterexamples -/

/-- Input lines for the C1 counterexample: two `data:` lines, the first of
which emits a `"done"` event. -/
def linesC1 : List String := ["event: done", "data: 1", "data: 2"]

/-- Input lines for the C2 witness. -/
def linesW2 : List String := ["event: done", "data: \x7b\x7d"]

/-- Extension lines for the C2 witness. -/
def extraW2 : List String := ["data: 2"]

/-- The scenario event sequence of the specification (a `"text"` event then
a `"done"` event). -/
def evsW6 : List StreamEvent :=
  [ { event := "text", data := Json.obj [("text", Json.str "Hi")] },
    { event := "done", data := Json.obj
        [("turns", Json.num 1), ("duration_ms", Json.num 42),
         ("tokens", Json.obj [("total", Json.num 5)])] } ]

/-- Expected fold result for `evsW6`. -/
def resW6 : StreamResult :=
  { text := "Hi", tokens := { input := 0, output := 0, cache_read := 0, total := 5 },
    turns := 1, duration_ms := 42 }

/-- A `"done"` event whose payload mentions `cache_read`. -/
def evC7 : StreamEvent :=
  { event := "done",
    data := Json.obj [("tokens", Json.obj [("cache_read", Json.num 7)])] }

/-- Event sequence for the C7 witness: a `"done"` event with a partial
`tokens` payload. -/
def evsW7 : List StreamEvent :=
  [ { event := "done", data := Json.obj [("tokens", Json.obj [("input", Json.num 3)])] } ]

/-- Expected fold result for `evsW7`. -/
def resW7 : StreamResult :=
  { text := "", tokens := { input := 3, output := 0, cache_read := 0, total := 0 },
    turns := 0, duration_ms := 0 }

/-- The error body of the specification scenario for a 503 response. -/
def errBodyStr : String :=
  "\x7b\"error\":\"overloaded\",\"message\":\"try later\"\x7d"

/-- The bytes of `errBodyStr`. -/
def errBodyBytes : List Nat := errBodyStr.data.map Char.toNat

/-- Bytes of a body that is not JSON. -/
def oopsBytes : List Nat := "oops".data.map Char.toNat

/-- A URL with an `https://` scheme and no explicit port. -/
def urlW : String := "https://example.com/v1/agents/bot/stream"

/-- A serialized request body for the C8 witness. -/
def bodyW : String := "\x7b\"message\": \"Hi\"\x7d"

end AgentSpec

namespace AgentSpec

/-! ## Generic helper lemmas -/

theorem strMkData (s : String) : String.mk s.data = s := rfl

theorem strMkAppend (a b : String) : String.mk (a.data ++ b.data) = a ++ b := rfl

theorem strAppendAssoc (a b c : String) : a ++ b ++ c = a ++ (b ++ c) := by
  cases a with
  | mk l =>
    cases b with
    | mk m =>
      cases c with
      | mk n =>
        show String.mk (l ++ m ++ n) = String.mk (l ++ (m ++ n))
        rw [List.append_assoc]

theorem strEmptyAppend (s : String) : "" ++ s = s := by
  cases s with
  | mk l => rfl

theorem strAppendEmpty (s : String) : s ++ "" = s := by
  cases s with
  | mk l =>
    show String.mk (l ++ []) = String.mk l
    rw [List.append_nil]

theorem bindOk {α β : Type} (x : α) (f : α → Except Unit β) :
    (Except.ok x >>= f) = f x := rfl

theorem bindErr {α β : Type} (u : Unit) (f : α → Except Unit β) :
    ((Except.error u : Except Unit α) >>= f) = Except.error u := rfl

/-! ## Claims C1 and C2: the SSE decoder -/

theorem decodeSSE_spec (jdec : String → Option Json) (lines : List String) :
    ∀ pending,
      decodeSSE jdec lines pending =
        upToDone ((specDataPairs lines pending).map
          (fun p => { event := p.1, data := decodeOrRaw jdec p.2 })) := by
  induction lines with
  | nil => intro pending; rfl
  | cons raw rest ih =>
    intro pending
    cases h1 : pyStartsWith (rstripNL raw) "event: " with
    | true =>
      simp only [decodeSSE, specDataPairs, h1, if_true]
      exact ih _
    | false =>
      cases h2 : pyStartsWith (rstripNL raw) "data: " with
      | false =>
        simp only [decodeSSE, specDataPairs, h1, h2, Bool.false_eq_true, if_false]
        exact ih _
      | true =>
        cases h3 : pending == "done" with
        | true =>
          simp [decodeSSE, specDataPairs, upToDone, h1, h2, h3]
        | false =>
          simp only [decodeSSE, specDataPairs, h1, h2, h3, Bool.false_eq_true,
            if_false, if_true, List.map_cons, upToDone]
          simp [ih ""]

/-- C1 (amended): over any input line sequence the SSE decoder emits exactly
one event per `data: `-prefixed line, in arrival order, up to and including
the first event named `"done"` (lines after that emission produce nothing);
blank lines and lines with neither marker are ignored; each event carries
the most recently seen preceding `event: ` name since the last emission
(empty when none) and the JSON decoding of the text after `data: `, or
`{"raw": <that text>}` when decoding fails. -/
theorem c1_decoder_per_data_line (jdec : String → Option Json) (lines : List String) :
    decodeSSE jdec lines "" = specSSE jdec lines ∧
    (∀ s, jdec s = none → decodeOrRaw jdec s = Json.obj [("raw", Json.str s)]) :=
  ⟨decodeSSE_spec jdec lines "", fun s h => by simp [decodeOrRaw, h]⟩

/-- C1 witness: instantiates the raw-fallback clause at a concrete non-JSON
payload. -/
theorem c1_decoder_witness :
    jsonParse "oops" = none ∧
    decodeOrRaw jsonParse "oops" = Json.obj [("raw", Json.str "oops")] :=
  ⟨rfl, (c1_decoder_per_data_line jsonParse []).2 "oops" rfl⟩

/-- C1 counterexample: the claim as stated (one event for EVERY `data: `
line) fails once a `"done"` event is emitted: these three lines hold two
`data: ` lines but the decoder emits a single event. -/
theorem c1_counterexample :
    (decodeSSE jsonParse linesC1 "").length = 1 ∧
    (linesC1.filter (fun l => pyStartsWith (rstripNL l) "data: ")).length = 2 := by
  constructor <;> rfl

theorem decodeSSE_doneOnlyLast (jdec : String → Option Json) (lines : List String) :
    ∀ pending, doneOnlyLast (decodeSSE jdec lines pending) = true := by
  induction lines with
  | nil => intro pending; rfl
  | cons raw rest ih =>
    intro pending
    cases h1 : pyStartsWith (rstripNL raw) "event: " with
    | true =>
      simp only [decodeSSE, h1, if_true]
      exact ih _
    | false =>
      cases h2 : pyStartsWith (rstripNL raw) "data: " with
      | false =>
        simp only [decodeSSE, h1, h2, Bool.false_eq_true, if_false]
        exact ih _
      | true =>
        cases h3 : pending == "done" with
        | true => simp [decodeSSE, h1, h2, h3, doneOnlyLast]
        | false =>
          simp only [decodeSSE, h1, h2, h3, Bool.false_eq_true, if_false, if_true]
          cases hT : decodeSSE jdec rest "" with
          | nil => rfl
          | cons x xs =>
            show ((pending != "done") && doneOnlyLast (x :: xs)) = true
            rw [Bool.and_eq_true]
            refine ⟨by simp [bne, h3], ?_⟩
            have := ih ""
            rw [hT] at this
            exact this

theorem decodeSSE_extension (jdec : String → Option Json) (lines : List String) :
    ∀ pending extra,
      lastName (decodeSSE jdec lines pending) = some "done" →
      decodeSSE jdec (lines ++ extra) pending = decodeSSE jdec lines pending := by
  induction lines with
  | nil =>
    intro pending extra h
    simp [decodeSSE, lastName] at h
  | cons raw rest ih =>
    intro pending extra h
    rw [List.cons_append]
    cases h1 : pyStartsWith (rstripNL raw) "event: " with
    | true =>
      simp only [decodeSSE, h1, if_true] at h ⊢
      exact ih _ extra h
    | false =>
      cases h2 : pyStartsWith (rstripNL raw) "data: " with
      | false =>
        simp only [decodeSSE, h1, h2, Bool.false_eq_true, if_false] at h ⊢
        exact ih _ extra h
      | true =>
        cases h3 : pending == "done" with
        | true =>
          simp only [decodeSSE, h1, h2, h3, Bool.false_eq_true, if_false, if_true]
        | false =>
          simp only [decodeSSE, h1, h2, h3, Bool.false_eq_true, if_false, if_true] at h ⊢
          cases hT : decodeSSE jdec rest "" with
          | nil =>
            rw [hT] at h
            simp only [lastName, Option.some.injEq] at h
            rw [h] at h3
            simp at h3
          | cons x xs =>
            rw [hT] at h
            have hrec := ih "" extra (by rw [hT]; exact h)
            rw [hrec, hT]

/-- C2: the decoder stops at the first emitted `"done"` event or at
end-of-stream: no event other than the final one is ever named `"done"`,
and once the emitted sequence ends with a `"done"` event, extending the
input with further lines changes nothing — those lines are never read and
never emit. -/
theorem c2_sentinel_termination (jdec : String → Option Json) (lines extra : List String) :
    doneOnlyLast (decodeSSE jdec lines "") = true ∧
    (lastName (decodeSSE jdec lines "") = some "done" →
      decodeSSE jdec (lines ++ extra) "" = decodeSSE jdec lines "") :=
  ⟨decodeSSE_doneOnlyLast jdec lines "", decodeSSE_extension jdec lines "" extra⟩

/-- C2 witness: a stream whose second line emits a `"done"` event; appending
another `data: ` line leaves the emitted events unchanged. -/
theorem c2_sentinel_witness :
    lastName (decodeSSE jsonParse linesW2 "") = some "done" ∧
    decodeSSE jsonParse (linesW2 ++ extraW2) "" = decodeSSE jsonParse linesW2 "" :=
  ⟨rfl, (c2_sentinel_termination jsonParse linesW2 extraW2).2 rfl⟩


/-! ## Claim C3: the non-200 branch -/

/-- C3 (amended): when the parsed status is not 200, the stream operation
reads the remaining buffered bytes, decodes them, and fails without ever
emitting an event: a mapping body yields `APIError` with the body fields
(defaulting to `"unknown"` and `"request failed"` when missing), a body
that fails JSON decoding propagates the JSON decode error itself (not an
`APIError`), and a body that decodes to a non-mapping (or fails the byte
decode) falls back to `APIError(status, "unknown", "request failed")`. -/
theorem c3_non200_branch (udec : List Nat → Option String) (jdec : String → Option Json)
    (status : Int) (buf : List Nat) (lines : List String) (hst : status ≠ 200) :
    streamDispatch udec jdec status buf lines = Except.error (handleNon200 udec jdec status buf) ∧
    (∀ kvs s, udec (buf.take 4096) = some s → jdec s = some (Json.obj kvs) →
      handleNon200 udec jdec status buf =
        PyErr.apiError status (jlookupD kvs "error" (Json.str "unknown"))
          (jlookupD kvs "message" (Json.str "request failed"))) ∧
    (∀ s, udec (buf.take 4096) = some s → jdec s = none →
      handleNon200 udec jdec status buf = PyErr.jsonDecodeError) ∧
    (udec (buf.take 4096) = none →
      handleNon200 udec jdec status buf =
        PyErr.apiError status (Json.str "unknown") (Json.str "request failed")) := by
  refine ⟨by simp [streamDispatch, hst], ?_, ?_, ?_⟩
  · intro kvs s hu hj
    simp [handleNon200, handleNon200Body, hu, hj]
  · intro s hu hj
    simp [handleNon200, handleNon200Body, hu, hj]
  · intro hu
    simp [handleNon200, handleNon200Body, hu]

/-- C3 witness: the scenario of the specification, a 503 response with body
`{"error":"overloaded","message":"try later"}`, fails with exactly
`APIError(503, "overloaded", "try later")` and produces no events. -/
theorem c3_non200_witness :
    (503 : Int) ≠ 200 ∧
    streamDispatch asciiDecode jsonParse 503 errBodyBytes [] =
      Except.error (PyErr.apiError 503 (Json.str "overloaded") (Json.str "try later")) := by
  refine ⟨by decide, ?_⟩
  have h := (c3_non200_branch asciiDecode jsonParse 503 errBodyBytes [] (by decide)).1
  rw [h]
  rfl

/-- C3 counterexample: the claim as stated says a body that fails to decode
yields the fallback `APIError(status, "unknown", "request failed")`; on the
non-JSON body `oops` the code instead re-raises the JSON decode error. -/
theorem c3_counterexample :
    handleNon200 asciiDecode jsonParse 503 oopsBytes = PyErr.jsonDecodeError ∧
    PyErr.jsonDecodeError ≠
      PyErr.apiError 503 (Json.str "unknown") (Json.str "request failed") := by
  refine ⟨rfl, ?_⟩
  intro h
  have hh := congrArg PyErr.isApi h
  simp [PyErr.isApi] at hh

/-! ## Claim C4: the header-reading loop -/

/-- C4 (code bug): at end-of-stream before the blank-line terminator the
header loop of `stream` (lines 104-108) never exits: `readline` returns the
empty end-of-stream sentinel, which matches neither `b"
"` nor `b"
"`,
so after any number of iterations the loop is still running.  The claimed
termination with a protocol failure does not occur. -/
theorem c4_header_loop_no_eof_exit :
    ∀ n : Nat, headerIter n [] = Sum.inl [] := by
  intro n
  induction n with
  | zero => rfl
  | succ k ih =>
    show headerIter (k + 1) [] = Sum.inl []
    rw [headerIter]
    have hstep : headerStep [] = Sum.inl [] := rfl
    rw [hstep]
    exact ih

/-! ## Claim C9: the bounded error-body read -/

/-- C9: the error body in the non-200 branch comes from a single read of at
most 4096 bytes (line 111: `await reader.read(4096)`): the branch only ever
decodes `buf.take 4096`, that prefix never exceeds 4096 bytes, and once
4096 bytes are buffered, any further bytes cannot change the outcome — a
longer error body is truncated before JSON decoding. -/
theorem c9_error_body_truncated (udec : List Nat → Option String)
    (jdec : String → Option Json) (status : Int) (buf extra : List Nat) :
    handleNon200 udec jdec status buf = handleNon200Body jdec status (udec (buf.take 4096)) ∧
    (buf.take 4096).length = min 4096 buf.length ∧
    (buf.length = 4096 →
      handleNon200 udec jdec status (buf ++ extra) = handleNon200 udec jdec status buf) := by
  refine ⟨rfl, List.length_take 4096 buf, ?_⟩
  intro hlen
  unfold handleNon200
  have htake : (buf ++ extra).take 4096 = buf.take 4096 := by
    rw [List.take_append_of_le_length (by omega)]
  rw [htake]

/-- C9 witness: a 4096-byte buffer extended by one byte produces the same
error value. -/
theorem c9_truncation_witness :
    (List.replicate 4096 (0 : Nat)).length = 4096 ∧
    handleNon200 asciiDecode jsonParse 500 (List.replicate 4096 0 ++ [1]) =
      handleNon200 asciiDecode jsonParse 500 (List.replicate 4096 0) :=
  ⟨List.length_replicate 4096 0,
    (c9_error_body_truncated asciiDecode jsonParse 500 (List.replicate 4096 0) [1]).2.2
      (List.length_replicate 4096 0)⟩

/-! ## Claim C10: default port 80 -/

/-- C10: for every base URL whose host-port component (the text before the
first slash, after stripping the `http://` and `https://` markers) contains
no colon, `_parse_host_port` returns that component with port 80 — in
particular for `https://` URLs, so the plaintext connection is opened on
port 80 whenever no port is given. -/
theorem c10_default_port_80 (url : String)
    (h : (hostPortOf url).data.contains ':' = false) :
    parse_host_port url = some (hostPortOf url, 80) := by
  have hnc : ¬ ((hostPortOf url).data.contains ':' = true) := by
    rw [h]
    simp
  simp only [parse_host_port]
  rw [if_neg hnc]

/-- C10 witness: an `https://` URL with no explicit port resolves to port
80. -/
theorem c10_https_witness :
    (hostPortOf urlW).data.contains ':' = false ∧
    parse_host_port urlW = some ("example.com", 80) :=
  ⟨rfl, (c10_default_port_80 urlW rfl).trans rfl⟩


/-! ## Claims C6 and C7: the stream_text accumulator -/

theorem except_seq_ok {α β : Type} {m : Except Unit α} {f : α → Except Unit β} {b : β}
    (h : (m >>= f) = Except.ok b) : ∃ a, m = Except.ok a ∧ f a = Except.ok b := by
  cases m with
  | error u => rw [bindErr] at h; exact absurd h (by simp)
  | ok a =>
    rw [bindOk] at h
    exact ⟨a, rfl, h⟩

theorem jgetE_ok {j : Json} {k : String} {d v : Json} (h : jgetE j k d = Except.ok v) :
    ∃ kvs, j = Json.obj kvs ∧ v = jlookupD kvs k d :=
  match j, h with
  | Json.obj kvs, h => ⟨kvs, rfl, (Except.ok.inj h).symm⟩
  | Json.null, h => nomatch h
  | Json.bool _, h => nomatch h
  | Json.num _, h => nomatch h
  | Json.str _, h => nomatch h
  | Json.arr _, h => nomatch h

theorem asStr_ok {v : Json} {s : String} (h : asStr v = Except.ok s) : v = Json.str s :=
  match v, h with
  | Json.str _, h => by rw [Except.ok.inj h]
  | Json.null, h => nomatch h
  | Json.bool _, h => nomatch h
  | Json.num _, h => nomatch h
  | Json.arr _, h => nomatch h
  | Json.obj _, h => nomatch h

theorem asInt_ok {v : Json} {n : Int} (h : asInt v = Except.ok n) : v = Json.num n :=
  match v, h with
  | Json.num _, h => by rw [Except.ok.inj h]
  | Json.null, h => nomatch h
  | Json.bool _, h => nomatch h
  | Json.str _, h => nomatch h
  | Json.arr _, h => nomatch h
  | Json.obj _, h => nomatch h

theorem streamTextStep_text {r0 r1 : StreamResult} {e : StreamEvent}
    (hev : (e.event == "text") = true) (h : streamTextStep r0 e = Except.ok r1) :
    r1 = { r0 with text := r0.text ++ textField e.data } := by
  unfold streamTextStep at h
  rw [hev, if_pos rfl] at h
  obtain ⟨tv, hg, h⟩ := except_seq_ok h
  obtain ⟨t, hs, h⟩ := except_seq_ok h
  obtain ⟨kvs, hobj, htv⟩ := jgetE_ok hg
  have hlook : jlookupD kvs "text" (Json.str "") = Json.str t := htv.symm.trans (asStr_ok hs)
  have htf : textField e.data = t := by
    rw [hobj]
    simp only [textField, jfieldD]
    rw [hlook]
  rw [htf]
  exact (Except.ok.inj h).symm

theorem streamTextStep_done {r0 r1 : StreamResult} {e : StreamEvent}
    (hev1 : (e.event == "text") = false) (hev2 : (e.event == "done") = true)
    (h : streamTextStep r0 e = Except.ok r1) :
    r1 = { r0 with
           tokens := tokensField e.data
           turns := intField e.data "turns"
           duration_ms := intField e.data "duration_ms" } := by
  unfold streamTextStep at h
  rw [hev1, if_neg Bool.false_ne_true, hev2, if_pos rfl] at h
  obtain ⟨td, hgtd, h⟩ := except_seq_ok h
  obtain ⟨x1, hgx1, h⟩ := except_seq_ok h
  obtain ⟨n1, hix1, h⟩ := except_seq_ok h
  obtain ⟨x2, hgx2, h⟩ := except_seq_ok h
  obtain ⟨n2, hix2, h⟩ := except_seq_ok h
  obtain ⟨x3, hgx3, h⟩ := except_seq_ok h
  obtain ⟨n3, hix3, h⟩ := except_seq_ok h
  obtain ⟨x4, hgx4, h⟩ := except_seq_ok h
  obtain ⟨n4, hix4, h⟩ := except_seq_ok h
  obtain ⟨x5, hgx5, h⟩ := except_seq_ok h
  obtain ⟨n5, hix5, h⟩ := except_seq_ok h
  obtain ⟨kvs, hobj, htd⟩ := jgetE_ok hgtd
  obtain ⟨kvs2, hobj2, hx1⟩ := jgetE_ok hgx1
  obtain ⟨kvs2b, hobj2b, hx2⟩ := jgetE_ok hgx2
  obtain ⟨kvs2c, hobj2c, hx3⟩ := jgetE_ok hgx3
  obtain ⟨kvs4, hobj4, hx4⟩ := jgetE_ok hgx4
  obtain ⟨kvs5, hobj5, hx5⟩ := jgetE_ok hgx5
  have hTF : tokensField e.data =
      { input := n1, output := n2, cache_read := 0, total := n3 } := by
    simp only [tokensField]
    rw [hobj]
    simp only [jfieldD]
    rw [← htd]
    have e1 : intField td "input" = n1 := by
      rw [hobj2]
      simp only [intField, jfieldD]
      rw [hx1.symm.trans (asInt_ok hix1)]
    have e2 : intField td "output" = n2 := by
      rw [hobj2b]
      simp only [intField, jfieldD]
      rw [hx2.symm.trans (asInt_ok hix2)]
    have e3 : intField td "total" = n3 := by
      rw [hobj2c]
      simp only [intField, jfieldD]
      rw [hx3.symm.trans (asInt_ok hix3)]
    rw [e1, e2, e3]
  have hTurns : intField e.data "turns" = n4 := by
    rw [hobj4]
    simp only [intField, jfieldD]
    rw [hx4.symm.trans (asInt_ok hix4)]
  have hDur : intField e.data "duration_ms" = n5 := by
    rw [hobj5]
    simp only [intField, jfieldD]
    rw [hx5.symm.trans (asInt_ok hix5)]
  rw [hTF, hTurns, hDur]
  exact (Except.ok.inj h).symm

theorem streamTextStep_other {r0 : StreamResult} {e : StreamEvent}
    (hev1 : (e.event == "text") = false) (hev2 : (e.event == "done") = false) :
    streamTextStep r0 e = Except.ok r0 := by
  unfold streamTextStep
  rw [hev1, if_neg Bool.false_ne_true, hev2, if_neg Bool.false_ne_true]

theorem streamTextFold_spec (evs : List StreamEvent) :
    ∀ r0 r : StreamResult, List.foldlM streamTextStep r0 evs = Except.ok r →
      r.text = r0.text ++ specText evs ∧
      r.tokens = (match lastDone evs with
        | some e => tokensField e.data
        | none => r0.tokens) ∧
      r.turns = (match lastDone evs with
        | some e => intField e.data "turns"
        | none => r0.turns) ∧
      r.duration_ms = (match lastDone evs with
        | some e => intField e.data "duration_ms"
        | none => r0.duration_ms) := by
  induction evs with
  | nil =>
    intro r0 r h
    simp only [List.foldlM_nil] at h
    have h2 : Except.ok r0 = Except.ok r := h
    have hr : r0 = r := Except.ok.inj h2
    subst hr
    exact ⟨(strAppendEmpty r0.text).symm, rfl, rfl, rfl⟩
  | cons e rest ih =>
    intro r0 r h
    rw [List.foldlM_cons] at h
    obtain ⟨r1, hstep, hrest⟩ := except_seq_ok h
    have ihr := ih r1 r hrest
    cases hev1 : e.event == "text" with
    | true =>
      have hd : (e.event == "done") = false := by
        have he : e.event = "text" := by simpa using hev1
        rw [he]
        rfl
      have hr1 := streamTextStep_text hev1 hstep
      subst hr1
      refine ⟨?_, ?_, ?_, ?_⟩
      · rw [ihr.1]
        simp only [specText, hev1, if_pos]
        exact strAppendAssoc r0.text (textField e.data) (specText rest)
      · rw [ihr.2.1]
        simp only [lastDone, hd, Bool.false_eq_true, if_false]
        cases lastDone rest <;> rfl
      · rw [ihr.2.2.1]
        simp only [lastDone, hd, Bool.false_eq_true, if_false]
        cases lastDone rest <;> rfl
      · rw [ihr.2.2.2]
        simp only [lastDone, hd, Bool.false_eq_true, if_false]
        cases lastDone rest <;> rfl
    | false =>
      cases hev2 : e.event == "done" with
      | true =>
        have hr1 := streamTextStep_done hev1 hev2 hstep
        subst hr1
        refine ⟨?_, ?_, ?_, ?_⟩
        · rw [ihr.1]
          simp only [specText, hev1, Bool.false_eq_true, if_false]
          rw [strEmptyAppend]
        · rw [ihr.2.1]
          simp only [lastDone, hev2, if_pos]
          cases lastDone rest <;> rfl
        · rw [ihr.2.2.1]
          simp only [lastDone, hev2, if_pos]
          cases lastDone rest <;> rfl
        · rw [ihr.2.2.2]
          simp only [lastDone, hev2, if_pos]
          cases lastDone rest <;> rfl
      | false =>
        have hstep0 := @streamTextStep_other r0 e hev1 hev2
        have hr1 : r0 = r1 := Except.ok.inj (hstep0.symm.trans hstep)
        subst hr1
        refine ⟨?_, ?_, ?_, ?_⟩
        · rw [ihr.1]
          simp only [specText, hev1, Bool.false_eq_true, if_false]
          rw [strEmptyAppend]
        · rw [ihr.2.1]
          simp only [lastDone, hev2, Bool.false_eq_true, if_false]
          cases lastDone rest <;> rfl
        · rw [ihr.2.2.1]
          simp only [lastDone, hev2, Bool.false_eq_true, if_false]
          cases lastDone rest <;> rfl
        · rw [ihr.2.2.2]
          simp only [lastDone, hev2, Bool.false_eq_true, if_false]
          cases lastDone rest <;> rfl

/-- C6: on every event sequence on which the `stream_text` fold completes,
the resulting text is the ordered concatenation of the `text` payload field
of every event named `"text"` (events lacking the field contribute
nothing), and `turns` and `duration_ms` are overwritten — not accumulated —
with the fields of each arriving `"done"` event, so they end at the values
of the last `"done"` event (0 when the field is absent or no `"done"`
arrived). -/
theorem c6_stream_text_result (evs : List StreamEvent) (r : StreamResult)
    (h : streamTextFold evs = Except.ok r) :
    r.text = specText evs ∧ r.turns = specTurns evs ∧ r.duration_ms = specDuration evs := by
  have hm := streamTextFold_spec evs {} r h
  refine ⟨?_, ?_, ?_⟩
  · rw [hm.1]
    exact strEmptyAppend _
  · rw [hm.2.2.1]
    unfold specTurns
    cases lastDone evs <;> rfl
  · rw [hm.2.2.2]
    unfold specDuration
    cases lastDone evs <;> rfl

/-- C6 witness: the specification scenario — a `"text"` event carrying
`Hi` then a `"done"` event with `turns` 1, `duration_ms` 42 and total 5
tokens — folds to exactly that result. -/
theorem c6_stream_text_witness :
    streamTextFold evsW6 = Except.ok resW6 ∧
    (resW6.text = specText evsW6 ∧ resW6.turns = specTurns evsW6 ∧
      resW6.duration_ms = specDuration evsW6) :=
  ⟨rfl, c6_stream_text_result evsW6 resW6 rfl⟩

/-- C7 (amended): the token usage of the `stream_text` result is populated
only from the last `"done"` event, and only its `input`, `output` and
`total` fields are read from the payload (absent fields stay 0); the
`cache_read` field is never populated and is always 0, even when the
payload mentions it. -/
theorem c7_tokens_amended (evs : List StreamEvent) (r : StreamResult)
    (h : streamTextFold evs = Except.ok r) :
    r.tokens = specTokens evs ∧ r.tokens.cache_read = 0 := by
  have hm := streamTextFold_spec evs {} r h
  have ht : r.tokens = specTokens evs := by
    rw [hm.2.1]
    unfold specTokens
    cases lastDone evs <;> rfl
  refine ⟨ht, ?_⟩
  rw [ht]
  unfold specTokens
  cases lastDone evs <;> rfl

/-- C7 witness: a `"done"` event mentioning only `input` leaves `output`,
`total` and `cache_read` at 0 and sets `input` to the payload value. -/
theorem c7_tokens_witness :
    streamTextFold evsW7 = Except.ok resW7 ∧
    (resW7.tokens = specTokens evsW7 ∧ resW7.tokens.cache_read = 0) :=
  ⟨rfl, c7_tokens_amended evsW7 resW7 rfl⟩

/-- C7 counterexample: the claim as stated says a `cache_read` field
mentioned in the terminal payload takes the payload value (7 here); the
code never reads it, so the result keeps 0. -/
theorem c7_counterexample :
    (streamTextFold [evC7]).map (fun r => r.tokens.cache_read) = Except.ok 0 ∧
    (streamTextFold [evC7]).map (fun r => r.tokens.cache_read) ≠ Except.ok 7 := by
  refine ⟨rfl, ?_⟩
  intro h
  have h2 : Except.ok (0 : Int) = Except.ok 7 :=
    (rfl : (streamTextFold [evC7]).map (fun r => r.tokens.cache_read) = Except.ok 0).symm.trans h
  have h3 : (0 : Int) = 7 := Except.ok.inj h2
  exact absurd h3 (by decide)


/-! ## Claim C8: request encoding round-trip -/

theorem obindSome {α β : Type} (a : α) (f : α → Option β) : (some a >>= f) = f a := rfl

theorem takeUntilChar_append (t : Char) (xs rest : List Char) (h : ∀ c ∈ xs, c ≠ t) :
    takeUntilChar t (xs ++ t :: rest) = some (xs, rest) := by
  induction xs with
  | nil => simp [takeUntilChar]
  | cons a as ih =>
    have ha : a ≠ t := h a (List.mem_cons_self a as)
    rw [List.cons_append]
    simp only [takeUntilChar, if_neg ha]
    rw [ih (fun c hc => h c (List.mem_cons_of_mem a hc))]
    rfl

theorem natDigitsAux_clean (fuel : Nat) :
    ∀ n c, c ∈ natDigitsAux fuel n → c ≠ '\r' := by
  induction fuel with
  | zero =>
    intro n c hc
    simp [natDigitsAux] at hc
  | succ f ih =>
    intro n c hc
    rw [natDigitsAux] at hc
    by_cases h : n < 10
    · rw [if_pos h] at hc
      simp at hc
      subst hc
      interval_cases n <;> decide
    · rw [if_neg h] at hc
      simp at hc
      rcases hc with h1 | h2
      · exact ih _ c h1
      · subst h2
        have hm : n % 10 < 10 := Nat.mod_lt _ (by omega)
        interval_cases hq : (n % 10) <;> decide

theorem natDigits_clean (n : Nat) : ∀ c ∈ natDigits n, c ≠ '\r' :=
  fun c hc => natDigitsAux_clean (n + 1) n c hc

theorem take2_ne_crlf (c : Char) (t : List Char) (hc : c ≠ '\r') :
    (c :: t).take 2 ≠ ['\r', '\n'] := by
  rw [List.take_succ_cons]
  intro h
  injection h with h1 _
  exact hc h1

theorem breakCRLF_last (l body : List Char) (h : ∀ c ∈ l, c ≠ '\r') :
    breakAtCRLFCRLF (l ++ '\r' :: '\n' :: '\r' :: '\n' :: body) = some (l, body) := by
  induction l with
  | nil => rfl
  | cons a as ih =>
    have ha : a ≠ '\r' := h a (List.mem_cons_self a as)
    rw [List.cons_append]
    rw [breakAtCRLFCRLF]
    rw [if_neg (fun hc => ha hc.1)]
    rw [ih (fun c hc => h c (List.mem_cons_of_mem a hc))]
    rfl

theorem breakCRLF_step (l tail : List Char) (h : ∀ c ∈ l, c ≠ '\r')
    (htail : tail.take 2 ≠ ['\r', '\n']) :
    breakAtCRLFCRLF (l ++ '\r' :: '\n' :: tail) =
      (breakAtCRLFCRLF tail).map (fun p => (l ++ '\r' :: '\n' :: p.1, p.2)) := by
  induction l with
  | nil =>
    rw [List.nil_append]
    rw [breakAtCRLFCRLF]
    rw [if_neg ?hc1]
    case hc1 =>
      intro hc
      apply htail
      have h3 := hc.2
      rw [List.take_succ_cons] at h3
      exact (List.cons.inj h3).2
    rw [breakAtCRLFCRLF]
    rw [if_neg (fun hc => absurd hc.1 (by decide))]
    cases breakAtCRLFCRLF tail <;> simp
  | cons a as ih =>
    have ha : a ≠ '\r' := h a (List.mem_cons_self a as)
    rw [List.cons_append]
    rw [breakAtCRLFCRLF]
    rw [if_neg (fun hc => ha hc.1)]
    rw [ih (fun c hc => h c (List.mem_cons_of_mem a hc))]
    cases breakAtCRLFCRLF tail <;> simp

theorem breakCRLF_sep (ls : List (List Char)) (body : List Char) (hne : ls ≠ [])
    (hclean : ∀ l ∈ ls, (∀ c ∈ l, c ≠ '\r') ∧ l ≠ []) :
    breakAtCRLFCRLF (sepCRLF ls ++ '\r' :: '\n' :: '\r' :: '\n' :: body) =
      some (sepCRLF ls, body) := by
  induction ls with
  | nil => exact absurd rfl hne
  | cons l ls ih =>
    cases ls with
    | nil =>
      simp only [sepCRLF]
      exact breakCRLF_last l body (hclean l (List.mem_cons_self l [])).1
    | cons l2 ls2 =>
      have hl := hclean l (List.mem_cons_self l (l2 :: ls2))
      have hl2 := hclean l2 (List.mem_cons_of_mem l (List.mem_cons_self l2 ls2))
      have hsepe : sepCRLF (l :: l2 :: ls2) = l ++ '\r' :: '\n' :: sepCRLF (l2 :: ls2) := rfl
      rw [hsepe, List.append_assoc, List.cons_append, List.cons_append]
      rw [breakCRLF_step l _ hl.1 ?htl]
      case htl =>
        obtain ⟨c2, l2t, h2⟩ : ∃ c2 l2t, l2 = c2 :: l2t := by
          cases l2 with
          | nil => exact absurd rfl hl2.2
          | cons x xs => exact ⟨x, xs, rfl⟩
        have hc2 : c2 ≠ '\r' := hl2.1 c2 (by rw [h2]; exact List.mem_cons_self c2 l2t)
        have hsep : ∃ t, sepCRLF (l2 :: ls2) ++ '\r' :: '\n' :: '\r' :: '\n' :: body
            = c2 :: t := by
          cases ls2 with
          | nil =>
            refine ⟨l2t ++ '\r' :: '\n' :: '\r' :: '\n' :: body, ?_⟩
            have e2 : sepCRLF [l2] = l2 := rfl
            rw [e2, h2, List.cons_append]
          | cons l3 ls3 =>
            refine ⟨(l2t ++ '\r' :: '\n' :: sepCRLF (l3 :: ls3)) ++
              '\r' :: '\n' :: '\r' :: '\n' :: body, ?_⟩
            have e2 : sepCRLF (l2 :: l3 :: ls3) = l2 ++ '\r' :: '\n' :: sepCRLF (l3 :: ls3) :=
              rfl
            rw [e2, h2]
            simp [List.append_assoc]
        obtain ⟨t, ht⟩ := hsep
        rw [ht]
        exact take2_ne_crlf c2 t hc2
      rw [ih (by simp) (fun x hx => hclean x (List.mem_cons_of_mem l hx))]
      rfl

theorem splitCRLF_clean (l : List Char) (h : ∀ c ∈ l, c ≠ '\r') :
    splitCRLF l = [l] := by
  induction l with
  | nil => rfl
  | cons a as ih =>
    cases as with
    | nil => rfl
    | cons b bs =>
      have ha : a ≠ '\r' := h a (List.mem_cons_self a (b :: bs))
      simp only [splitCRLF]
      rw [if_neg (fun hc => ha hc.1)]
      rw [ih (fun c hc => h c (List.mem_cons_of_mem a hc))]

theorem splitCRLF_append (l rest : List Char) (h : ∀ c ∈ l, c ≠ '\r') :
    splitCRLF (l ++ '\r' :: '\n' :: rest) = l :: splitCRLF rest := by
  induction l with
  | nil => rfl
  | cons a as ih =>
    have ha : a ≠ '\r' := h a (List.mem_cons_self a as)
    have ihr := ih (fun c hc => h c (List.mem_cons_of_mem a hc))
    cases as with
    | nil =>
      rw [List.cons_append, List.nil_append]
      rw [splitCRLF]
      rw [if_neg (fun hc => ha hc.1)]
      have einner : splitCRLF ('\r' :: '\n' :: rest) = [] :: splitCRLF rest := rfl
      rw [einner]
    | cons b bs =>
      rw [List.cons_append, List.cons_append]
      rw [splitCRLF]
      rw [if_neg (fun hc => ha hc.1)]
      rw [List.cons_append] at ihr
      rw [ihr]

theorem splitCRLF_sep (ls : List (List Char)) (hne : ls ≠ [])
    (hclean : ∀ l ∈ ls, ∀ c ∈ l, c ≠ '\r') :
    splitCRLF (sepCRLF ls) = ls := by
  induction ls with
  | nil => exact absurd rfl hne
  | cons l ls ih =>
    cases ls with
    | nil =>
      simp only [sepCRLF]
      exact splitCRLF_clean l (hclean l (List.mem_cons_self l []))
    | cons l2 ls2 =>
      have hsepe : sepCRLF (l :: l2 :: ls2) = l ++ '\r' :: '\n' :: sepCRLF (l2 :: ls2) := rfl
      rw [hsepe]
      rw [splitCRLF_append l _ (hclean l (List.mem_cons_self l (l2 :: ls2)))]
      rw [ih (by simp) (fun x hx => hclean x (List.mem_cons_of_mem l hx))]

theorem splitChar_clean (t : Char) (l : List Char) (h : ∀ c ∈ l, c ≠ t) :
    splitChar t l = [l] := by
  induction l with
  | nil => rfl
  | cons a as ih =>
    have ha : a ≠ t := h a (List.mem_cons_self a as)
    simp only [splitChar]
    rw [if_neg ha]
    rw [ih (fun c hc => h c (List.mem_cons_of_mem a hc))]

theorem splitChar_append (t : Char) (l rest : List Char) (h : ∀ c ∈ l, c ≠ t) :
    splitChar t (l ++ t :: rest) = l :: splitChar t rest := by
  induction l with
  | nil =>
    rw [List.nil_append]
    rw [splitChar]
    rw [if_pos rfl]
  | cons a as ih =>
    have ha : a ≠ t := h a (List.mem_cons_self a as)
    rw [List.cons_append]
    simp only [splitChar]
    rw [if_neg ha]
    rw [ih (fun c hc => h c (List.mem_cons_of_mem a hc))]

theorem parseHeaderLines_cons (k vr : List Char) (ls : List (List Char))
    (hk : ∀ c ∈ k, c ≠ ':') :
    parseHeaderLines ((k ++ ':' :: vr) :: ls) =
      (parseHeaderLines ls).map
        (fun hs => (String.mk k, String.mk (dropOneSpace vr)) :: hs) := by
  simp only [parseHeaderLines]
  rw [takeUntilChar_append ':' k vr hk, obindSome]
  cases parseHeaderLines ls <;> rfl

theorem encodeRequest_lines (path host apiKey bodyStr : String) :
    encodeRequest path host apiKey bodyStr =
      sepCRLF (headerLines path host apiKey bodyStr) ++
        '\r' :: '\n' :: '\r' :: '\n' :: bodyStr.data := by
  have d1 : " HTTP/1.1\r\n".data = " HTTP/1.1".data ++ '\r' :: '\n' :: ([] : List Char) := rfl
  have d2 : ("\r\n" : String).data = '\r' :: '\n' :: ([] : List Char) := rfl
  have d3 : "Content-Type: application/json\r\n".data =
      ctLine ++ '\r' :: '\n' :: ([] : List Char) := rfl
  have d4 : "Accept: text/event-stream\r\n".data =
      acceptLine ++ '\r' :: '\n' :: ([] : List Char) := rfl
  by_cases hk : apiKey = ""
  · simp [encodeRequest, headerLines, sepCRLF, requestLine, hostLine, ctLine, clLine,
      acceptLine, hk, d1, d2, d3, d4, List.append_assoc]
  · simp [encodeRequest, headerLines, sepCRLF, requestLine, hostLine, ctLine, clLine,
      authLine, acceptLine, hk, d1, d2, d3, d4, List.append_assoc]


/-- C8: the request encoder emits exactly the request line, the header
lines (with `Content-Length` equal to the UTF-8 byte length of the
serialized body), a blank line, and the body, so that a standard HTTP/1.1
parser run on those bytes reproduces the method `POST`, the path, the
version, every header, and the body bytes, whenever the path has no space
or carriage return and the host and API key have no carriage return. -/
theorem c8_round_trip (path host apiKey bodyStr : String)
    (hpath : ∀ c ∈ path.data, c ≠ ' ' ∧ c ≠ '\r')
    (hhost : ∀ c ∈ host.data, c ≠ '\r')
    (hkey : ∀ c ∈ apiKey.data, c ≠ '\r') :
    parseRequest (encodeRequest path host apiKey bodyStr) =
      some { method := "POST", path := path, version := "HTTP/1.1",
             headers := expectedHeaders host apiKey bodyStr, body := bodyStr } := by
  have hP : ∀ c ∈ "POST ".data, c ≠ '\r' := by decide
  have hH : ∀ c ∈ " HTTP/1.1".data, c ≠ '\r' := by decide
  have hHostPre : ∀ c ∈ "Host: ".data, c ≠ '\r' := by decide
  have hCT : ∀ c ∈ ctLine, c ≠ '\r' := by decide
  have hCLPre : ∀ c ∈ "Content-Length: ".data, c ≠ '\r' := by decide
  have hAuthPre : ∀ c ∈ "Authorization: Bearer ".data, c ≠ '\r' := by decide
  have hAcc : ∀ c ∈ acceptLine, c ≠ '\r' := by decide
  have hreqclean : ∀ c ∈ requestLine path, c ≠ '\r' := by
    intro c hc
    simp only [requestLine, List.append_assoc, List.mem_append] at hc
    rcases hc with hc | hc | hc
    · exact hP c hc
    · exact (hpath c hc).2
    · exact hH c hc
  have hhostclean : ∀ c ∈ hostLine host, c ≠ '\r' := by
    intro c hc
    simp only [hostLine, List.mem_append] at hc
    rcases hc with hc | hc
    · exact hHostPre c hc
    · exact hhost c hc
  have hclclean : ∀ c ∈ clLine bodyStr, c ≠ '\r' := by
    intro c hc
    simp only [clLine, List.mem_append] at hc
    rcases hc with hc | hc
    · exact hCLPre c hc
    · exact natDigits_clean _ c hc
  have hauthclean : ∀ c ∈ authLine apiKey, c ≠ '\r' := by
    intro c hc
    simp only [authLine, List.mem_append] at hc
    rcases hc with hc | hc
    · exact hAuthPre c hc
    · exact hkey c hc
  have hreqne : requestLine path ≠ [] := fun hcon => nomatch hcon
  have hhostne : hostLine host ≠ [] := fun hcon => nomatch hcon
  have hctne : ctLine ≠ [] := fun hcon => nomatch hcon
  have hclne : clLine bodyStr ≠ [] := fun hcon => nomatch hcon
  have hauthne : authLine apiKey ≠ [] := fun hcon => nomatch hcon
  have haccne : acceptLine ≠ [] := fun hcon => nomatch hcon
  have e_req : splitChar ' ' (requestLine path) =
      ["POST".data, path.data, "HTTP/1.1".data] := by
    have e1 : requestLine path =
        "POST".data ++ ' ' :: (path.data ++ ' ' :: "HTTP/1.1".data) := rfl
    rw [e1]
    rw [splitChar_append ' ' "POST".data _ (by decide)]
    rw [splitChar_append ' ' path.data _ (fun c hc => (hpath c hc).1)]
    rw [splitChar_clean ' ' "HTTP/1.1".data (by decide)]
  have r1 : hostLine host = "Host".data ++ ':' :: (' ' :: host.data) := rfl
  have r2 : ctLine = "Content-Type".data ++ ':' :: (' ' :: "application/json".data) := rfl
  have r3 : clLine bodyStr =
      "Content-Length".data ++ ':' :: (' ' :: natDigits bodyStr.utf8ByteSize) := rfl
  have r4 : authLine apiKey =
      "Authorization".data ++ ':' :: (' ' :: ("Bearer ".data ++ apiKey.data)) := rfl
  have r5 : acceptLine = "Accept".data ++ ':' :: (' ' :: "text/event-stream".data) := rfl
  by_cases hk : apiKey = ""
  · have e_hl : headerLines path host apiKey bodyStr =
        requestLine path :: hostLine host :: ctLine :: clLine bodyStr :: [acceptLine] := by
      simp [headerLines, hk]
    have hlines : ∀ l ∈ requestLine path :: hostLine host :: ctLine :: clLine bodyStr ::
        [acceptLine], (∀ c ∈ l, c ≠ '\r') ∧ l ≠ [] := by
      intro l hl
      simp only [List.mem_cons, List.not_mem_nil, or_false] at hl
      rcases hl with rfl | rfl | rfl | rfl | rfl
      exacts [⟨hreqclean, hreqne⟩, ⟨hhostclean, hhostne⟩, ⟨hCT, hctne⟩,
        ⟨hclclean, hclne⟩, ⟨hAcc, haccne⟩]
    have e_break := breakCRLF_sep _ bodyStr.data (by simp) hlines
    have e_split := splitCRLF_sep _ (by simp) (fun l hl => (hlines l hl).1)
    have e_hd : parseHeaderLines (hostLine host :: ctLine :: clLine bodyStr :: [acceptLine]) =
        some (expectedHeaders host apiKey bodyStr) := by
      rw [r1, r2, r3, r5]
      rw [parseHeaderLines_cons _ _ _ (by decide)]
      rw [parseHeaderLines_cons _ _ _ (by decide)]
      rw [parseHeaderLines_cons _ _ _ (by decide)]
      rw [parseHeaderLines_cons _ _ _ (by decide)]
      rw [show parseHeaderLines ([] : List (List Char)) = some [] from rfl]
      simp [expectedHeaders, hk]
      exact ⟨rfl, rfl, rfl, rfl⟩
    rw [encodeRequest_lines, e_hl]
    simp only [parseRequest, e_break, obindSome, e_split, e_req, e_hd]
    rfl
  · have e_hl : headerLines path host apiKey bodyStr =
        requestLine path :: hostLine host :: ctLine :: clLine bodyStr ::
          authLine apiKey :: [acceptLine] := by
      simp [headerLines, hk]
    have hlines : ∀ l ∈ requestLine path :: hostLine host :: ctLine :: clLine bodyStr ::
        authLine apiKey :: [acceptLine], (∀ c ∈ l, c ≠ '\r') ∧ l ≠ [] := by
      intro l hl
      simp only [List.mem_cons, List.not_mem_nil, or_false] at hl
      rcases hl with rfl | rfl | rfl | rfl | rfl | rfl
      exacts [⟨hreqclean, hreqne⟩, ⟨hhostclean, hhostne⟩, ⟨hCT, hctne⟩,
        ⟨hclclean, hclne⟩, ⟨hauthclean, hauthne⟩, ⟨hAcc, haccne⟩]
    have e_break := breakCRLF_sep _ bodyStr.data (by simp) hlines
    have e_split := splitCRLF_sep _ (by simp) (fun l hl => (hlines l hl).1)
    have e_hd : parseHeaderLines (hostLine host :: ctLine :: clLine bodyStr ::
        authLine apiKey :: [acceptLine]) =
        some (expectedHeaders host apiKey bodyStr) := by
      rw [r1, r2, r3, r4, r5]
      rw [parseHeaderLines_cons _ _ _ (by decide)]
      rw [parseHeaderLines_cons _ _ _ (by decide)]
      rw [parseHeaderLines_cons _ _ _ (by decide)]
      rw [parseHeaderLines_cons _ _ _ (by decide)]
      rw [parseHeaderLines_cons _ _ _ (by decide)]
      rw [show parseHeaderLines ([] : List (List Char)) = some [] from rfl]
      simp [expectedHeaders, hk]
      exact ⟨rfl, rfl, rfl, rfl, rfl⟩
    rw [encodeRequest_lines, e_hl]
    simp only [parseRequest, e_break, obindSome, e_split, e_req, e_hd]
    rfl

/-- C8 witness: a concrete streaming request round-trips through the
parser. -/
theorem c8_round_trip_witness :
    (∀ c ∈ "/v1/agents/bot/stream".data, c ≠ ' ' ∧ c ≠ '\r') ∧
    parseRequest (encodeRequest "/v1/agents/bot/stream" "localhost:8080" "k" bodyW) =
      some { method := "POST", path := "/v1/agents/bot/stream", version := "HTTP/1.1",
             headers := expectedHeaders "localhost:8080" "k" bodyW, body := bodyW } :=
  ⟨by decide, c8_round_trip "/v1/agents/bot/stream" "localhost:8080" "k" bodyW
    (by decide) (by decide) (by decide)⟩

end AgentSpec
